import Mathlib

/-!
Shallow embedding of the imabari-kouhou119 schedule pipeline
(src/streamlit_app.py) and verification of the frozen claims.

Strings are modelled as Lean `String`s; the character-level operations the
pandas code performs (`str.replace`, `str.split`, `str.strip`, the
parenthesis-split regex) are implemented on `List Char` via `String.data`.
Machine-level pandas behaviour that matters is reproduced explicitly:
 - `str.replace(" ", "")` removes every space character;
 - `str.replace("8:30", "08:30")` is a leftmost non-overlapping single pass;
 - `pd.to_numeric(..., errors="coerce")` follows pandas' column-wise
   conversion (`maybe_convert_numeric`): a column whose first tokens are all
   pure integer literals in range becomes int64 (or uint64, whose values
   `astype(int)` then wraps two's-complement); any other column becomes
   float64, each value parsed with IEEE-754 round-to-nearest-even;
   `astype(int)` truncates the double toward zero, raises on non-finite
   values (a parsed `inf`/`-inf` aborts the stage, so `split_text` returns
   an `Option`), and maps finite out-of-int64-range doubles to the x86-64
   cast sentinel -2^63; unparseable tokens (including `nan` spellings)
   coerce to NaN and are dropped by `dropna`;
 - `str.split()` with no pattern and `str.strip()` split/strip on Python's
   Unicode whitespace set (U+0009-U+000D, U+001C-U+001F, space, U+0085,
   U+00A0, U+1680, U+2000-U+200A, U+2028, U+2029, U+202F, U+205F, U+3000);
 - `df[["name","time"]] = value.str.split(pat, expand=True)` requires the
   expanded frame to have exactly two columns, otherwise pandas raises;
   `melt_and_split` therefore returns an `Option`, `none` modelling the abort;
 - `sort_values` sorts by the given keys; the embedding uses a stable
   insertion sort, a valid refinement of the unspecified tie order.
-/

/-! ### Character-list helpers -/

/-- Python's `str` whitespace set (the characters `str.isspace` accepts:
bidirectional classes WS/B/S and category Zs; U+3000 is the last one). -/
def isWsChar (c : Char) : Bool :=
  let n := c.toNat
  (9 ≤ n && n ≤ 13) || (28 ≤ n && n ≤ 31) || n == 32 || n == 133 || n == 160 ||
  n == 0x1680 || (0x2000 ≤ n && n ≤ 0x200A) || n == 0x2028 || n == 0x2029 ||
  n == 0x202F || n == 0x205F || n == 0x3000

def isParenChar (c : Char) : Bool := c = '(' || c = ')'

/-- Drop trailing characters satisfying `p` (used for `str.strip` variants). -/
def dropTrailing (p : Char → Bool) (s : List Char) : List Char :=
  (s.reverse.dropWhile p).reverse

/-- Python/pandas `str.strip()` : strip whitespace from both ends. -/
def stripWsEnds (s : List Char) : List Char :=
  dropTrailing isWsChar (s.dropWhile isWsChar)

/-- pandas `str.strip("()")` : strip parenthesis characters from both ends. -/
def stripParenEnds (s : List Char) : List Char :=
  dropTrailing isParenChar (s.dropWhile isParenChar)

/-- `str.replace("~", "～")` (character-for-character). -/
def mapTilde (s : List Char) : List Char :=
  s.map fun c => if c = '~' then '～' else c

/-- `str.replace(" ", "")` : remove every space character. -/
def removeSpaces (s : List Char) : List Char :=
  s.filter fun c => c ≠ ' '

/-- `str.replace("\n\(", "(", regex=True)` : drop a newline directly before
an opening parenthesis (leftmost, single pass). -/
def replNlParen : List Char → List Char
  | '\n' :: '(' :: rest => '(' :: replNlParen rest
  | c :: rest => c :: replNlParen rest
  | [] => []

/-- `str.replace(")(", " / ")` : rewrite the inter-range joiner
(leftmost non-overlapping, single pass). -/
def replParenPair : List Char → List Char
  | ')' :: '(' :: rest => ' ' :: '/' :: ' ' :: replParenPair rest
  | c :: rest => c :: replParenPair rest
  | [] => []

/-- `str.replace("8:30", "08:30")` : the Classifier's zero-padding pass
(leftmost non-overlapping, single pass). -/
def pad830 : List Char → List Char
  | '8' :: ':' :: '3' :: '0' :: rest => '0' :: '8' :: ':' :: '3' :: '0' :: pad830 rest
  | c :: rest => c :: pad830 rest
  | [] => []

/-- Python `str.split()` with no argument: split on runs of whitespace,
no empty tokens. -/
def splitWsAux (acc : List Char) : List Char → List (List Char)
  | [] => if acc.isEmpty then [] else [acc.reverse]
  | c :: cs =>
    if isWsChar c then
      if acc.isEmpty then splitWsAux [] cs else acc.reverse :: splitWsAux [] cs
    else splitWsAux (c :: acc) cs

def splitWs (s : List Char) : List (List Char) := splitWsAux [] s

/-- Split on the regex `(?<!\))\(` : at every opening parenthesis not
immediately preceded by a closing one; the delimiter is consumed.  `prev`
is the previous character of the original string (the sentinel `'\x00'`
stands for "no previous character", where the lookbehind fails and a split
is allowed). -/
def splitParenAux (prev : Char) (acc : List Char) : List Char → List (List Char)
  | [] => [acc.reverse]
  | c :: cs =>
    if c = '(' && prev != ')' then acc.reverse :: splitParenAux c [] cs
    else splitParenAux c (c :: acc) cs

def splitParenMarks (s : List Char) : List (List Char) := splitParenAux '\x00' [] s

/-- Substring test (used for `str.contains` with a literal pattern). -/
def hasSub (p : List Char) : List Char → Bool
  | [] => p.isEmpty
  | c :: cs => p.isPrefixOf (c :: cs) || hasSub p cs

/-- `p` occurs as a contiguous substring of `s`. -/
def HasSub (p s : List Char) : Prop := ∃ a b, s = a ++ p ++ b

/-! ### Numeric parsing (`pd.to_numeric(..., errors="coerce")` + `astype(int)`) -/

def isDigitChar (c : Char) : Bool := '0' ≤ c && c ≤ '9'

def digitVal (c : Char) : Nat := c.toNat - '0'.toNat

def takeDigits : List Char → (List Char × List Char)
  | [] => ([], [])
  | c :: cs =>
    if isDigitChar c then
      let p := takeDigits cs
      (c :: p.1, p.2)
    else ([], c :: cs)

def digitsToNat (acc : Nat) : List Char → Nat
  | [] => acc
  | c :: cs => digitsToNat (acc * 10 + digitVal c) cs

def parseSign : List Char → (Bool × List Char)
  | '-' :: r => (true, r)
  | '+' :: r => (false, r)
  | s => (false, s)

/-- Parse an optional exponent suffix (`e`/`E`, optional sign, digits);
an empty remainder means exponent `0`; anything else is a parse failure. -/
def parseExpPart : List Char → Option Int
  | [] => some 0
  | 'e' :: r =>
    let s := parseSign r
    let d := takeDigits s.2
    if d.1.isEmpty || !d.2.isEmpty then none
    else some (if s.1 then -(digitsToNat 0 d.1 : Int) else (digitsToNat 0 d.1 : Int))
  | 'E' :: r =>
    let s := parseSign r
    let d := takeDigits s.2
    if d.1.isEmpty || !d.2.isEmpty then none
    else some (if s.1 then -(digitsToNat 0 d.1 : Int) else (digitsToNat 0 d.1 : Int))
  | _ => none

/-- The classification pandas' `maybe_convert_numeric` gives one token:
unparseable/`nan` spellings coerce to NaN; a pure integer literal (optional
sign + digits, nothing else) keeps its exact value; any token with a
decimal point or exponent is a float literal `±n·10^t` (with `n < 10^len`);
`inf`/`infinity` spellings (any case, optional sign) are infinities. -/
inductive PdNum where
  | nan : PdNum
  | intNum (neg : Bool) (n : Nat) : PdNum
  | decNum (neg : Bool) (n : Nat) (len : Nat) (t : Int) : PdNum
  | infNum (neg : Bool) : PdNum
deriving DecidableEq, Repr

/-- Case-insensitive `inf` / `infinity` (pandas' `precise_xstrtod`). -/
def isInfRest (s : List Char) : Bool :=
  let l := s.map Char.toLower
  l = "inf".data || l = "infinity".data

def parsePdNum (s : List Char) : PdNum :=
  let sg := parseSign s
  if isInfRest sg.2 then .infNum sg.1
  else
    let d1 := takeDigits sg.2
    match d1.2 with
    | '.' :: r3 =>
      let d2 := takeDigits r3
      if d1.1.isEmpty && d2.1.isEmpty then .nan
      else
        match parseExpPart d2.2 with
        | none => .nan
        | some e =>
          .decNum sg.1 (digitsToNat 0 (d1.1 ++ d2.1)) (d1.1.length + d2.1.length)
            (e - d2.1.length)
    | r2 =>
      if d1.1.isEmpty then .nan
      else if r2.isEmpty then .intNum sg.1 (digitsToNat 0 d1.1)
      else
        match parseExpPart r2 with
        | none => .nan
        | some e => .decNum sg.1 (digitsToNat 0 d1.1) d1.1.length e

/-! #### IEEE-754 binary64 rounding, by exact integer arithmetic -/

/-- `2^e ≤ p/q`, for `p, q ≥ 1` and an arbitrary integer `e`. -/
def pow2Le (e : Int) (p q : Nat) : Bool :=
  if 0 ≤ e then q * 2 ^ e.toNat ≤ p else q ≤ p * 2 ^ (-e).toNat

/-- `Nat.log2` by fuel (structural recursion, so that it evaluates inside
the kernel); the fuel only has to exceed `log2 n`. -/
def natLog2Aux : Nat → Nat → Nat
  | 0, _ => 0
  | fuel + 1, n => if 2 ≤ n then natLog2Aux fuel (n / 2) + 1 else 0

def natLog2 (n : Nat) : Nat := natLog2Aux n n

/-- The binade of `p/q`: the `E` with `2^E ≤ p/q < 2^(E+1)` (`p, q ≥ 1`). -/
def floorLog2 (p q : Nat) : Int :=
  let e : Int := (natLog2 p : Int) - (natLog2 q : Int)
  if pow2Le e p q then e else e - 1

/-- Round `p/q` (`p, q ≥ 1`) to 53 significant bits, round-to-nearest,
ties to even: the result `(m, E)` represents `m·2^(E-52)`,
`2^52 ≤ m < 2^53`.  (Values this development feeds in are at least 1/10,
far above the subnormal range, so the fixed 53-bit precision is exact.) -/
def roundMantissa (p q : Nat) : Nat × Int :=
  let E := floorLog2 p q
  let s : Int := 52 - E
  let num := if 0 ≤ s then p * 2 ^ s.toNat else p
  let den := if 0 ≤ s then q else q * 2 ^ (-s).toNat
  let m0 := num / den
  let r := num % den
  let up := den < 2 * r || (2 * r == den && m0 % 2 == 1)
  let m := if up then m0 + 1 else m0
  if m = 2 ^ 53 then (2 ^ 52, E + 1) else (m, E)

/-- `2^1024 - 2^970`, written out as a literal (large exponentiations are
not reduced during elaboration): the halfway point past the largest
finite double; values at or above it round (ties to even) to `+inf`. -/
def dblOvfThreshold : Nat :=
  179769313486231580793728971405303415079934132710037826936173778980444968292764750946649017977587207096330286416692887910946555547851940402630657488671505820681908902000708383676273854845817711531764475730270069855571366959622842914819860834936475292719074168444365510704342711559699508093042880177904174497792

/-- The float64 nearest to `p/q` (`p, q ≥ 1`), truncated toward zero;
`none` when the value rounds to `+inf` (at or above `dblOvfThreshold`). -/
def doubleTruncPos (p q : Nat) : Option Nat :=
  if q * dblOvfThreshold ≤ p then none
  else
    let me := roundMantissa p q
    if 52 ≤ me.2 then some (me.1 * 2 ^ (me.2 - 52).toNat)
    else if me.2 < 0 then some 0
    else some (me.1 / 2 ^ (52 - me.2).toNat)

/-- numpy's float64 → int64 cast of the (already truncated) value `±a`:
in-range values pass through; out-of-range finite values produce the
x86-64 `cvttsd2si` sentinel `-2^63` (the deployment platform's behavior;
numpy emits a warning but does not raise). -/
def signedCastI64 (neg : Bool) (a : Nat) : Int :=
  let x : Int := if neg then -(a : Int) else (a : Int)
  if -(2 ^ 63) ≤ x ∧ x < 2 ^ 63 then x else -(2 ^ 63)

/-- Outcome of the day-column conversion for one row: the row is dropped
(`dropna` on NaN), kept with an int64 day, or the whole stage errors
(`astype(int)` raising on a non-finite value). -/
inductive DayVal where
  | err : DayVal
  | dropped : DayVal
  | keep (d : Int) : DayVal
deriving DecidableEq, Repr

/-- One value of a float64 day column through `dropna` + `astype(int)`:
NaN rows were dropped; `±inf` makes `astype` raise; a finite value is
parsed to the nearest double (integer tokens too are converted through
float64 on this path) and truncated toward zero.  The three guards keep
the arithmetic bounded: `t ≥ 310` is already past the double overflow
threshold, and `n·10^t < 10^(t+len) ≤ 1/10` truncates to zero. -/
def floatDayVal : PdNum → DayVal
  | .nan => .dropped
  | .infNum _ => .err
  | .intNum neg n =>
    if n = 0 then .keep 0
    else match doubleTruncPos n 1 with
      | none => .err
      | some a => .keep (signedCastI64 neg a)
  | .decNum neg n len t =>
    if n = 0 then .keep 0
    else if 310 ≤ t then .err
    else if t + (len : Int) < 0 then .keep 0
    else
      let p := if 0 ≤ t then n * 10 ^ t.toNat else n
      let q := if 0 ≤ t then 1 else 10 ^ (-t).toNat
      match doubleTruncPos p q with
      | none => .err
      | some a => .keep (signedCastI64 neg a)

def isIntNum : PdNum → Bool
  | .intNum _ _ => true
  | _ => false

/-- An integer token outside `[-2^63, 2^64)`: pandas falls back to float64
for the whole column. -/
def intFloatForced : PdNum → Bool
  | .intNum neg n => if neg then 2 ^ 63 < n else 2 ^ 64 ≤ n
  | _ => false

/-- An integer token above int64 max, forcing uint64 when possible. -/
def intUIntNeeded : PdNum → Bool
  | .intNum neg n => !neg && 2 ^ 63 ≤ n
  | _ => false

def isNegInt : PdNum → Bool
  | .intNum neg n => neg && n != 0
  | _ => false

inductive ColKind where
  | int64 : ColKind
  | uint64 : ColKind
  | float64 : ColKind
deriving DecidableEq, Repr

/-- The dtype `pd.to_numeric(..., errors="coerce")` infers for the day
column: int64 when every token is a pure integer literal in int64 range;
uint64 when all are non-negative pure integers fitting uint64 with at
least one above int64 max; float64 otherwise (any NaN, float or inf
token, any integer outside `[-2^63, 2^64)`, or — modeled as pandas'
graceful coercion — a uint64-requiring column that also holds a negative
value). -/
def colKind (vals : List PdNum) : ColKind :=
  if vals.all isIntNum && !vals.any intFloatForced then
    if vals.any intUIntNeeded then
      if vals.any isNegInt then .float64 else .uint64
    else .int64
  else .float64

/-- Convert one day value under the column's dtype: int64 columns are
exact; uint64 columns wrap two's-complement at `astype(int)`; float64
columns go through `floatDayVal`.  (The int64/uint64 arms only arise for
all-integer columns, so the catch-all is unreachable.) -/
def dayConv (k : ColKind) (v : PdNum) : DayVal :=
  match k, v with
  | .int64, .intNum neg n => .keep (if neg then -(n : Int) else (n : Int))
  | .uint64, .intNum _ n => .keep (if n < 2 ^ 63 then (n : Int) else (n : Int) - 2 ^ 64)
  | .float64, v => floatDayVal v
  | _, _ => .dropped

/-! ### Calendar arithmetic (proleptic Gregorian, as pandas Timestamps) -/

structure CalDate where
  year : Int
  month : Int
  day : Int
deriving DecidableEq, Repr

/-- Rata-die style day count (Hinnant's days-from-civil algorithm). -/
def daysFromCivil (y m d : Int) : Int :=
  let y2 := if m ≤ 2 then y - 1 else y
  let era := Int.fdiv y2 400
  let yoe := y2 - era * 400
  let mp := Int.fmod (m + 9) 12
  let doy := Int.fdiv (153 * mp + 2) 5 + d - 1
  let doe := yoe * 365 + Int.fdiv yoe 4 - Int.fdiv yoe 100 + doy
  era * 146097 + doe - 719468

/-- Inverse of `daysFromCivil` (Hinnant's civil-from-days algorithm). -/
def civilFromDays (z0 : Int) : CalDate :=
  let z := z0 + 719468
  let era := Int.fdiv z 146097
  let doe := z - era * 146097
  let yoe := Int.fdiv (doe - Int.fdiv doe 1460 + Int.fdiv doe 36524 - Int.fdiv doe 146096) 365
  let y := yoe + era * 400
  let doy := doe - (365 * yoe + Int.fdiv yoe 4 - Int.fdiv yoe 100)
  let mp := Int.fdiv (5 * doy + 2) 153
  let d := doy - Int.fdiv (153 * mp + 2) 5 + 1
  let m := mp + (if mp < 10 then 3 else -9)
  ⟨if m ≤ 2 then y + 1 else y, m, d⟩

/-- `pd.to_datetime(f"{yyyymm}01") + pd.to_timedelta(day - 1, unit="D")`. -/
def resolveDate (y m dayN : Int) : CalDate :=
  civilFromDays (daysFromCivil y m 1 + (dayN - 1))

/-! ### Data model -/

/-- A cell of the extracted grid; `none` models a `None` cell from
pdfplumber (pandas `NaN`). -/
abbrev RawGrid := List (List (Option String))

structure LongRow where
  number : Nat
  week : String
  text : String
deriving DecidableEq, Repr

structure DayRow where
  day : Int
  week : String
  slots : List String
deriving DecidableEq, Repr

structure MeltRow where
  day : Int
  week : String
  slotIndex : Nat
  value : String
deriving DecidableEq, Repr

structure SlotRow where
  day : Int
  week : String
  slotIndex : Nat
  name : String
  time : Option String
deriving DecidableEq, Repr

structure OutRow where
  day : Int
  week : String
  slotIndex : Nat
  name : String
  time : Option String
  type : Nat
deriving DecidableEq, Repr

structure Record where
  date : CalDate
  name : String
  type : Nat
  time : Option String
deriving DecidableEq, Repr

/-! ### Pipeline stage 1: Reshaper (`process_table`) -/

/-- The normalization chain applied to each cell text:
`~`→`～`, remove spaces, strip whitespace ends, `\n(`→`(`. -/
def normalizeText (s : String) : String :=
  ⟨replNlParen (stripWsEnds (removeSpaces (mapTilde s.data)))⟩

/-- `process_table`: row 0 is the header (column labels; a missing label is
filled with "日"); every non-`None`, non-empty cell becomes a `LongRow`,
row-major, with the normalized text.  The grid is assumed rectangular
(spec precondition); `zip` pairs each cell with its column label. -/
def process_table (table : RawGrid) : List LongRow :=
  match table with
  | [] => []
  | header :: rows =>
    (rows.enum.flatMap fun p =>
      (p.2.zip header).filterMap fun ch =>
        match ch.1 with
        | none => none
        | some s => if s = "" then none else some ⟨p.1, ch.2.getD "日", normalizeText s⟩)

/-! ### Pipeline stage 2: DaySplitter (`split_text`) -/

/-- The `PdNum` of a row's first whitespace token (a missing token — the
`None` padding of `str.split(expand=True)` — is NaN). -/
def firstTokenVal (r : LongRow) : PdNum :=
  match splitWs r.text.data with
  | [] => .nan
  | t0 :: _ => parsePdNum t0

/-- `split_text`: split each text on whitespace; `pd.to_numeric(coerce)`
converts the whole first-token column at once (choosing the dtype),
`dropna` drops the NaN rows, and `astype(int)` converts the rest — raising
on a non-finite value, which aborts the stage (`none`).  Kept rows carry
the remaining tokens as slots. -/
def split_text (df : List LongRow) : Option (List DayRow) :=
  let k := colKind (df.map firstTokenVal)
  if df.all fun r => !(dayConv k (firstTokenVal r) == DayVal.err) then
    some (df.filterMap fun r =>
      match splitWs r.text.data, dayConv k (firstTokenVal r) with
      | _ :: rest, DayVal.keep d => some ⟨d, r.week, rest.map fun t => ⟨t⟩⟩
      | _, _ => none)
  else none

/-! ### Pipeline stage 3: SlotExpander (`melt_and_split`) -/

/-- Lexicographic sort key of `sort_values(by=["day", "variable"])`. -/
def meltKey (a b : MeltRow) : Prop :=
  a.day < b.day ∨ (a.day = b.day ∧ a.slotIndex ≤ b.slotIndex)

instance : DecidableRel meltKey := fun a b => by unfold meltKey; infer_instance

instance : IsTotal MeltRow meltKey := ⟨by intro a b; unfold meltKey; omega⟩

instance : IsTrans MeltRow meltKey := ⟨by intro a b c; unfold meltKey; omega⟩

/-- `pd.melt(df, id_vars=["day","week"])` + `dropna(subset="value")`:
one row per (day row, slot column) with a present value, column-major
(all of column 1, then column 2, ...), as pandas melt emits it. -/
def meltRows (df : List DayRow) : List MeltRow :=
  let maxK := df.foldr (fun r m => max r.slots.length m) 0
  (List.range maxK).flatMap fun v =>
    df.filterMap fun r => (r.slots.get? v).map fun s => ⟨r.day, r.week, v + 1, s⟩

/-- `melt_and_split`: melt, sort by (day, variable), then split each value
at the first-level opening parentheses into name/time.  pandas assigns the
expanded columns to exactly `["name","time"]`, so the expansion must have
exactly two columns (the maximal number of parts must be 2); otherwise the
source raises — modelled as `none`. -/
def melt_and_split (df : List DayRow) : Option (List SlotRow) :=
  let sorted := List.insertionSort meltKey (meltRows df)
  if sorted.foldr (fun r m => max (splitParenMarks r.value.data).length m) 0 = 2 then
    some (sorted.map fun r =>
      match splitParenMarks r.value.data with
      | n :: t :: _ => ⟨r.day, r.week, r.slotIndex, ⟨n⟩, some ⟨replParenPair (stripParenEnds t)⟩⟩
      | n :: [] => ⟨r.day, r.week, r.slotIndex, ⟨n⟩, none⟩
      | [] => ⟨r.day, r.week, r.slotIndex, "", none⟩)
  else none

/-! ### Pipeline stage 4: Filter (`filter_data`) -/

def dropRowB (r : SlotRow) : Bool :=
  (r.week == "日" && hasSub "歯科".data r.name.data) || (r.name == "献血" || r.name == "市民会館前")

def filter_data (l : List SlotRow) : List SlotRow :=
  l.filter fun r => !(dropRowB r)

/-! ### Pipeline stage 5: Classifier (`categorize_data`) -/

def island : List String :=
  ["しのざき整形外科", "はかた外科胃腸科", "喜多嶋診療所", "斎藤クリニック",
   "大三島中央病院", "片山医院", "有津むらかみクリニック"]

def pediatrics : List String :=
  ["あおい小児科", "丹こどもクリニック", "まつうらバンビクリニック", "みぶ小児科",
   "医師会市民病院", "県立今治病院", "済生会今治病院"]

/-- Rule 1 + rule 2: default 8, island facilities 9. -/
def typeStep1 (r : SlotRow) : Nat := if r.name ∈ island then 9 else 8

/-- Rule 3: slot > 1, pediatric facility, time without the next-day marker
(a missing time counts as not containing it, per `fillna("")`). -/
def typeStep2 (r : SlotRow) : Nat :=
  if r.slotIndex > 1 ∧ r.name ∈ pediatrics ∧ ¬ hasSub "翌".data (r.time.getD "").data = true then 7
  else typeStep1 r

/-- Rule 4: fill the pediatric daytime string when the time is missing. -/
def timeStep1 (r : SlotRow) : Option String :=
  if r.time = none ∧ typeStep2 r = 7 then some "09:00～12:00 / 14:00～17:00" else r.time

/-- Rule 5: fill the island full-day string when the time is missing. -/
def timeStep2 (r : SlotRow) : Option String :=
  if timeStep1 r = none ∧ typeStep2 r = 9 then some "09:00～17:00" else timeStep1 r

/-- Rule 6: missing time in slot 1 means all-day duty, type 0. -/
def typeStep3 (r : SlotRow) : Nat :=
  if timeStep2 r = none ∧ r.slotIndex = 1 then 0 else typeStep2 r

/-- Rule 7: type-0 rows get the unpadded all-day time string. -/
def timeStep3 (r : SlotRow) : Option String :=
  if typeStep3 r = 0 then some "8:30～翌8:30" else timeStep2 r

/-- Rule 8: the zero-padding pass over the time string. -/
def timeStep4 (r : SlotRow) : Option String :=
  (timeStep3 r).map fun t => ⟨pad830 t.data⟩

/-- Rule 9. -/
def typeStep4 (r : SlotRow) : Nat :=
  if r.slotIndex = 1 ∧ typeStep3 r = 8 ∧ timeStep4 r = some "08:30～17:30" then 1 else typeStep3 r

/-- Rule 10. -/
def typeStep5 (r : SlotRow) : Nat :=
  if r.slotIndex = 2 ∧ typeStep4 r = 8 ∧ timeStep4 r = some "17:30～翌08:30" then 2 else typeStep4 r

/-- Rule 11. -/
def typeStep6 (r : SlotRow) : Nat :=
  if r.slotIndex = 1 ∧ typeStep5 r = 8 ∧ timeStep4 r = some "08:30～17:15 / 22:30～翌08:30" ∧
      r.name = "県立今治病院" then 3
  else typeStep5 r

/-- Rule 12. -/
def typeStep7 (r : SlotRow) : Nat :=
  if r.slotIndex = 2 ∧ typeStep6 r = 8 ∧ timeStep4 r = some "17:15～22:30" ∧
      r.name = "今治セントラルクリニック" then 4
  else typeStep6 r

/-- All of `categorize_data` is element-wise boolean masking, hence a map. -/
def categorize_row (r : SlotRow) : OutRow :=
  ⟨r.day, r.week, r.slotIndex, r.name, timeStep4 r, typeStep7 r⟩

def categorize_data (l : List SlotRow) : List OutRow := l.map categorize_row

/-! ### Pipeline stage 6: GapFiller (`add_missing_rows`) -/

def gapRow6 (d : Int) : OutRow := ⟨d, "日", 1, "医師会市民病院", some "09:00～17:30", 6⟩

def gapRow7 (d : Int) : OutRow :=
  ⟨d, "日", 1, "医師会市民病院", some "09:00～12:00 / 14:00～17:00", 7⟩

def sundayGapB (r : OutRow) : Bool :=
  r.week == "日" && r.slotIndex == 1 && r.name == "医師会市民病院" && r.type == 0

def filteredDays (l : List OutRow) : List Int := (l.filter sundayGapB).map (·.day)

def islandDayB (l : List OutRow) (r : OutRow) : Bool :=
  (filteredDays l).contains r.day && r.slotIndex == 2 && r.type == 9

def islandDays (l : List OutRow) : List Int := (l.filter (islandDayB l)).map (·.day)

/-- Lexicographic sort key of `sort_values(by=["day", "variable", "type"])`. -/
def outKey (a b : OutRow) : Prop :=
  a.day < b.day ∨ (a.day = b.day ∧ (a.slotIndex < b.slotIndex ∨
    (a.slotIndex = b.slotIndex ∧ a.type ≤ b.type)))

instance : DecidableRel outKey := fun a b => by unfold outKey; infer_instance

instance : IsTotal OutRow outKey := ⟨by intro a b; unfold outKey; omega⟩

instance : IsTrans OutRow outKey := ⟨by intro a b c; unfold outKey; omega⟩

def add_missing_rows (l : List OutRow) : List OutRow :=
  List.insertionSort outKey (l ++ (islandDays l).flatMap fun d => [gapRow6 d, gapRow7 d])

/-! ### Pipeline stage 7: DateResolver + full pipeline (`load_data` core) -/

def dateProject (y m : Int) (r : OutRow) : Record :=
  ⟨resolveDate y m r.day, r.name, r.type, r.time⟩

/-- The core pipeline of `load_data`, from the extracted grid and the
year-month context to the final records. -/
def runPipeline (table : RawGrid) (y m : Int) : Option (List Record) :=
  ((split_text (process_table table)).bind melt_and_split).map fun slots =>
    (add_missing_rows (categorize_data (filter_data slots))).map (dateProject y m)

/-! ### Fixed character patterns used by the claims -/

/-- "8:30" -/
def pat830 : List Char := ['8', ':', '3', '0']

/-- "08:30" (a zero-padded occurrence) -/
def padpat : List Char := ['0', '8', ':', '3', '0']

/-- "008:30" (a doubly padded occurrence) -/
def dpat : List Char := ['0', '0', '8', ':', '3', '0']

/-- "8:38:30" : the overlap pattern on which the single-pass replacement
leaves an unpadded occurrence behind. -/
def badpat : List Char := ['8', ':', '3', '8', ':', '3', '0']

/-- Every occurrence of "8:30" in `u` is immediately preceded by a '0'. -/
def Padded830 (u : List Char) : Prop :=
  ∀ a b, u = a ++ pat830 ++ b → ∃ a2, a = a2 ++ ['0']

/-! ### Concrete inputs used by the claims -/

/-- The grid of the spec's end-to-end scenario, exactly as written there
(space-separated tokens inside the schedule cell). -/
def scenarioGrid : RawGrid :=
  [[some "", some "月", some "火", some "水", some "木", some "金", some "土", some "日"],
   [some "1", some "1 A病院(08:30～17:30) B病院(17:30～翌08:30)",
    some "", some "", some "", some "", some "", some ""]]

/-- A grid whose only schedule row carries day 31, to be resolved in the
30-day month 2024-06. -/
def dayOverflowGrid : RawGrid :=
  [[some "", some "月"], [some "1", some "31\nX病院(09:00～12:00)"]]

/-- The slot rows `dayOverflowGrid` produces after `melt_and_split`. -/
def overflowSlots : List SlotRow := [⟨31, "月", 1, "X病院", some "09:00～12:00"⟩]

/-- The single record `dayOverflowGrid` produces (dated 2024-07-01). -/
def overflowRec : Record := ⟨⟨2024, 7, 1⟩, "X病院", 8, some "09:00～12:00"⟩

/-- A grid whose slot time contains the overlap pattern "8:38:30". -/
def unpaddedGrid : RawGrid :=
  [[some "", some "月"], [some "1", some "1\nX病院(8:38:30)"]]

/-- A slot row whose time already carries a zero-padded "08:30". -/
def paddedTimeRow : SlotRow := ⟨1, "月", 1, "A病院", some "08:30～17:30"⟩

/-- A Classifier output with one qualifying Sunday slot-1 type-0 row and two
slot-2 type-9 rows on the same day. -/
def gapInput : List OutRow :=
  [⟨1, "日", 1, "医師会市民病院", some "08:30～翌08:30", 0⟩,
   ⟨1, "日", 2, "しのざき整形外科", some "09:00～17:00", 9⟩,
   ⟨1, "日", 2, "大三島中央病院", some "09:00～17:00", 9⟩]

/-! ### Predicates for the GapFiller claim -/

def isGap6At (d : Int) (r : OutRow) : Bool := r == gapRow6 d

def isGap7At (d : Int) (r : OutRow) : Bool := r == gapRow7 d

/-- A slot-2 island-type row for day `d`. -/
def isIsland2At (d : Int) (r : OutRow) : Bool := r.day == d && r.slotIndex == 2 && r.type == 9

/-- Day `d` carries a Sunday slot-1 type-0 "医師会市民病院" row. -/
def hasSundayGapAt (l : List OutRow) (d : Int) : Prop :=
  ∃ r ∈ l, sundayGapB r = true ∧ r.day = d

instance (l : List OutRow) (d : Int) : Decidable (hasSundayGapAt l d) := by
  unfold hasSundayGapAt; infer_instance

/-! ### Substring and padding lemmas -/

theorem hasSub_iff (p s : List Char) : hasSub p s = true ↔ HasSub p s := by
  induction s with
  | nil =>
    simp only [hasSub, HasSub, List.isEmpty_iff]
    constructor
    · rintro rfl; exact ⟨[], [], rfl⟩
    · rintro ⟨a, b, h⟩
      rcases List.append_eq_nil.mp (List.append_eq_nil.mp h.symm).1 with ⟨-, h2⟩
      exact h2
  | cons c cs ih =>
    simp only [hasSub, Bool.or_eq_true, List.isPrefixOf_iff_prefix, ih]
    constructor
    · rintro (⟨t, ht⟩ | ⟨a, b, rfl⟩)
      · exact ⟨[], t, by simp [ht]⟩
      · exact ⟨c :: a, b, rfl⟩
    · rintro ⟨a, b, h⟩
      cases a with
      | nil => exact Or.inl ⟨b, by simpa using h.symm⟩
      | cons a1 a2 =>
        simp only [List.cons_append, List.cons.injEq] at h
        exact Or.inr ⟨a2, b, h.2⟩

instance (p s : List Char) : Decidable (HasSub p s) :=
  decidable_of_iff _ (hasSub_iff p s)

theorem not_padded_of_no_sub {u : List Char} (h : ¬ HasSub pat830 u) : Padded830 u :=
  fun a b hab => absurd ⟨a, b, hab⟩ h

theorem ne_of_hasSub {p u v : List Char} (h : HasSub p u) (hv : ¬ HasSub p v) : u ≠ v :=
  fun he => hv (he ▸ h)

theorem pad830_quad (t : List Char) :
    pad830 ('8' :: ':' :: '3' :: '0' :: t) = '0' :: '8' :: ':' :: '3' :: '0' :: pad830 t := rfl

theorem pad830_cons (c : Char) (cs : List Char)
    (h : ∀ t : List Char, c :: cs ≠ '8' :: ':' :: '3' :: '0' :: t) :
    pad830 (c :: cs) = c :: pad830 cs := by
  rw [pad830.eq_def]
  split
  · rename_i rest heq
    exact absurd heq (h rest)
  · rename_i c2 rest x heq
    injection heq with h1 h2
    subst h1; subst h2; rfl
  · rename_i heq
    exact absurd heq (List.cons_ne_nil c cs)

theorem pad830_eq_cons {l : List Char} {d : Char} {u : List Char} (h : pad830 l = d :: u) :
    (∃ t, l = '8' :: ':' :: '3' :: '0' :: t ∧ d = '0' ∧ u = '8' :: ':' :: '3' :: '0' :: pad830 t) ∨
    (∃ t, l = d :: t ∧ (∀ t2 : List Char, l ≠ '8' :: ':' :: '3' :: '0' :: t2) ∧ u = pad830 t) := by
  induction l using pad830.induct with
  | case1 rest ih =>
    rw [pad830_quad] at h
    injection h with h1 h2
    exact Or.inl ⟨rest, rfl, h1.symm, h2.symm⟩
  | case2 c rest hno ih =>
    have hne : ∀ t2 : List Char, c :: rest ≠ '8' :: ':' :: '3' :: '0' :: t2 := by
      intro t2 he
      injection he with e1 e2
      exact hno t2 e1 e2
    rw [pad830_cons c rest hne] at h
    injection h with h1 h2
    exact Or.inr ⟨rest, by rw [h1], hne, h2.symm⟩
  | case3 => simp [pad830] at h

theorem pad830_hasSub_dpat {s : List Char} (h : HasSub padpat s) : HasSub dpat (pad830 s) := by
  induction s using pad830.induct with
  | case1 rest ih =>
    rw [pad830_quad]
    rcases h with ⟨a, b, hab⟩
    rcases a with _ | ⟨a1, _ | ⟨a2, _ | ⟨a3, a4⟩⟩⟩
    · simp [padpat] at hab
    · simp only [padpat, List.cons_append, List.nil_append, List.cons.injEq] at hab
      exact absurd hab.2.1 (by decide)
    · simp only [padpat, List.cons_append, List.nil_append, List.cons.injEq] at hab
      exact absurd hab.2.2.1 (by decide)
    · rcases a4 with _ | ⟨a4h, a5⟩
      · simp only [padpat, List.cons_append, List.nil_append, List.cons.injEq] at hab
        obtain ⟨-, -, -, -, hrest⟩ := hab
        rw [hrest, pad830_quad]
        exact ⟨['0', '8', ':', '3'], pad830 b, by simp [dpat]⟩
      · simp only [padpat, List.cons_append, List.nil_append, List.cons.injEq] at hab
        obtain ⟨-, -, -, -, hrest⟩ := hab
        obtain ⟨u, v, huv⟩ := ih ⟨a5, b, hrest⟩
        exact ⟨'0' :: '8' :: ':' :: '3' :: '0' :: u, v, by simp [huv]⟩
  | case2 c rest hno ih =>
    have hne : ∀ t2 : List Char, c :: rest ≠ '8' :: ':' :: '3' :: '0' :: t2 := by
      intro t2 he
      injection he with e1 e2
      exact hno t2 e1 e2
    rw [pad830_cons c rest hne]
    rcases h with ⟨a, b, hab⟩
    rcases a with _ | ⟨a1, a2⟩
    · simp only [padpat, List.cons_append, List.nil_append, List.cons.injEq] at hab
      obtain ⟨hc, hrest⟩ := hab
      rw [hrest, pad830_quad, hc]
      exact ⟨[], pad830 b, by simp [dpat]⟩
    · simp only [List.cons_append, List.cons.injEq] at hab
      obtain ⟨u, v, huv⟩ := ih ⟨a2, b, hab.2⟩
      exact ⟨c :: u, v, by simp [huv]⟩
  | case3 =>
    rcases h with ⟨a, b, hab⟩
    simp [padpat] at hab

theorem pad830_padded {s : List Char} (hb : ¬ HasSub badpat s) : Padded830 (pad830 s) := by
  induction s using pad830.induct with
  | case1 rest ih =>
    rw [pad830_quad]
    have hb2 : ¬ HasSub badpat rest := by
      rintro ⟨a, b, hab⟩
      exact hb ⟨'8' :: ':' :: '3' :: '0' :: a, b, by simp [hab]⟩
    have hp := ih hb2
    intro a b h
    rcases a with _ | ⟨a1, _ | ⟨a2, _ | ⟨a3, _ | ⟨a4, _ | ⟨a5, a6⟩⟩⟩⟩⟩
    · simp [pat830] at h
    · simp only [pat830, List.cons_append, List.nil_append, List.cons.injEq] at h
      exact ⟨[], by simp [h.1.symm]⟩
    · simp only [pat830, List.cons_append, List.nil_append, List.cons.injEq] at h
      exact absurd h.2.2.1 (by decide)
    · simp only [pat830, List.cons_append, List.nil_append, List.cons.injEq] at h
      exact absurd h.2.2.2.1 (by decide)
    · simp only [pat830, List.cons_append, List.nil_append, List.cons.injEq] at h
      exact absurd h.2.2.2.2.1 (by decide)
    · simp only [pat830, List.cons_append, List.nil_append, List.cons.injEq] at h
      obtain ⟨h1, h2, h3, h4, h5, hrest⟩ := h
      rcases a6 with _ | ⟨a6h, a7⟩
      · exact ⟨['0', '8', ':', '3'], by simp [← h1, ← h2, ← h3, ← h4, ← h5]⟩
      · obtain ⟨a2', ha2⟩ := hp (a6h :: a7) b (by simpa [pat830] using hrest)
        exact ⟨a1 :: a2 :: a3 :: a4 :: a5 :: a2', by simp [ha2]⟩
  | case2 c rest hno ih =>
    have hne : ∀ t2 : List Char, c :: rest ≠ '8' :: ':' :: '3' :: '0' :: t2 := by
      intro t2 he
      injection he with e1 e2
      exact hno t2 e1 e2
    have hb2 : ¬ HasSub badpat rest := by
      rintro ⟨a, b, hab⟩
      exact hb ⟨c :: a, b, by simp [hab]⟩
    have hp := ih hb2
    rw [pad830_cons c rest hne]
    intro a b h
    rcases a with _ | ⟨a1, a5⟩
    · simp only [pat830, List.cons_append, List.nil_append, List.cons.injEq] at h
      obtain ⟨hc, hrest⟩ := h
      rcases pad830_eq_cons hrest with ⟨t1, ht1, hd, -⟩ | ⟨t1, ht1, -, hu1⟩
      · exact absurd hd (by decide)
      rcases pad830_eq_cons hu1.symm with ⟨t2, ht2, hd, -⟩ | ⟨t2, ht2, -, hu2⟩
      · exact absurd hd (by decide)
      rcases pad830_eq_cons hu2.symm with ⟨t3, ht3, -, -⟩ | ⟨t3, ht3, hne2, -⟩
      · exact absurd ⟨[], t3, by simp [badpat, hc, ht1, ht2, ht3]⟩ hb
      · exact absurd (hno t3 hc (by rw [ht1, ht2, ht3])) id
    · simp only [List.cons_append, List.cons.injEq] at h
      obtain ⟨a2', ha2⟩ := hp a5 b h.2
      exact ⟨a1 :: a2', by simp [ha2]⟩
  | case3 =>
    intro a b h
    simp [pad830, pat830] at h

/-! ### Classifier step lemmas -/

theorem typeStep1_cases (r : SlotRow) : typeStep1 r = 9 ∨ typeStep1 r = 8 := by
  unfold typeStep1; split <;> simp

theorem typeStep2_cases (r : SlotRow) : typeStep2 r = 7 ∨ typeStep2 r = typeStep1 r := by
  unfold typeStep2; split <;> simp

theorem typeStep3_cases (r : SlotRow) : typeStep3 r = 0 ∨ typeStep3 r = typeStep2 r := by
  unfold typeStep3; split <;> simp

theorem typeStep4_cases (r : SlotRow) : typeStep4 r = 1 ∨ typeStep4 r = typeStep3 r := by
  unfold typeStep4; split <;> simp

theorem typeStep5_cases (r : SlotRow) : typeStep5 r = 2 ∨ typeStep5 r = typeStep4 r := by
  unfold typeStep5; split <;> simp

theorem typeStep6_cases (r : SlotRow) : typeStep6 r = 3 ∨ typeStep6 r = typeStep5 r := by
  unfold typeStep6; split <;> simp

theorem typeStep7_cases (r : SlotRow) : typeStep7 r = 4 ∨ typeStep7 r = typeStep6 r := by
  unfold typeStep7; split <;> simp

theorem typeStep7_mem (r : SlotRow) :
    typeStep7 r ∈ ([0, 1, 2, 3, 4, 6, 7, 8, 9] : List Nat) := by
  rcases typeStep7_cases r with h7 | h7
  · rw [h7]; decide
  rcases typeStep6_cases r with h6 | h6
  · rw [h7, h6]; decide
  rcases typeStep5_cases r with h5 | h5
  · rw [h7, h6, h5]; decide
  rcases typeStep4_cases r with h4 | h4
  · rw [h7, h6, h5, h4]; decide
  rcases typeStep3_cases r with h3 | h3
  · rw [h7, h6, h5, h4, h3]; decide
  rcases typeStep2_cases r with h2 | h2
  · rw [h7, h6, h5, h4, h3, h2]; decide
  rcases typeStep1_cases r with h1 | h1 <;>
    rw [h7, h6, h5, h4, h3, h2, h1] <;> decide

theorem timeStep3_cases (r : SlotRow) :
    timeStep3 r = r.time ∨ timeStep3 r = some "09:00～12:00 / 14:00～17:00" ∨
    timeStep3 r = some "09:00～17:00" ∨ timeStep3 r = some "8:30～翌8:30" := by
  unfold timeStep3 timeStep2 timeStep1
  split_ifs <;> simp

theorem timeStep1_of_some {r : SlotRow} {t : String} (h : r.time = some t) :
    timeStep1 r = some t := by
  unfold timeStep1; rw [h]; simp

theorem timeStep2_of_some {r : SlotRow} {t : String} (h : r.time = some t) :
    timeStep2 r = some t := by
  unfold timeStep2; rw [timeStep1_of_some h]; simp

theorem typeStep2_ne_zero (r : SlotRow) : typeStep2 r ≠ 0 := by
  rcases typeStep2_cases r with h | h
  · simp [h]
  · rcases typeStep1_cases r with h1 | h1 <;> simp [h, h1]

theorem typeStep3_of_some {r : SlotRow} {t : String} (h : r.time = some t) :
    typeStep3 r = typeStep2 r := by
  unfold typeStep3; rw [timeStep2_of_some h]; simp

theorem timeStep3_of_some {r : SlotRow} {t : String} (h : r.time = some t) :
    timeStep3 r = some t := by
  unfold timeStep3
  rw [typeStep3_of_some h, if_neg (typeStep2_ne_zero r), timeStep2_of_some h]

theorem timeStep4_of_some {r : SlotRow} {t : String} (h : r.time = some t) :
    timeStep4 r = some ⟨pad830 t.data⟩ := by
  unfold timeStep4; rw [timeStep3_of_some h]; rfl

theorem typeStep7_of_padded_time {r : SlotRow} {t : String} (h : r.time = some t)
    (hsub : HasSub padpat t.data) (h8 : typeStep3 r = 8) : typeStep7 r = 8 := by
  have hd : HasSub dpat (pad830 t.data) := pad830_hasSub_dpat hsub
  have ht4 : timeStep4 r = some ⟨pad830 t.data⟩ := timeStep4_of_some h
  have hne : ∀ y : String, ¬ HasSub dpat y.data → timeStep4 r ≠ some y := by
    intro y hy he
    rw [ht4] at he
    injection he with he2
    exact ne_of_hasSub hd hy (congrArg String.data he2)
  have h4 : typeStep4 r = 8 := by
    unfold typeStep4
    rw [h8]
    have hc : ¬ (r.slotIndex = 1 ∧ (8 : Nat) = 8 ∧ timeStep4 r = some "08:30～17:30") := by
      rintro ⟨-, -, hteq⟩
      exact hne _ (by decide) hteq
    rw [if_neg hc]
  have h5 : typeStep5 r = 8 := by
    unfold typeStep5
    rw [h4]
    have hc : ¬ (r.slotIndex = 2 ∧ (8 : Nat) = 8 ∧ timeStep4 r = some "17:30～翌08:30") := by
      rintro ⟨-, -, hteq⟩
      exact hne _ (by decide) hteq
    rw [if_neg hc]
  have h6 : typeStep6 r = 8 := by
    unfold typeStep6
    rw [h5]
    have hc : ¬ (r.slotIndex = 1 ∧ (8 : Nat) = 8 ∧
        timeStep4 r = some "08:30～17:15 / 22:30～翌08:30" ∧ r.name = "県立今治病院") := by
      rintro ⟨-, -, hteq, -⟩
      exact hne _ (by decide) hteq
    rw [if_neg hc]
  unfold typeStep7
  rw [h6]
  have hc : ¬ (r.slotIndex = 2 ∧ (8 : Nat) = 8 ∧ timeStep4 r = some "17:15～22:30" ∧
      r.name = "今治セントラルクリニック") := by
    rintro ⟨-, -, hteq, -⟩
    exact hne _ (by decide) hteq
  rw [if_neg hc]

/-! ### Pipeline decomposition lemmas -/

theorem runPipeline_eq {g : RawGrid} {y m : Int} {out : List Record} :
    runPipeline g y m = some out ↔
      ∃ slots, (split_text (process_table g)).bind melt_and_split = some slots ∧
        out = (add_missing_rows (categorize_data (filter_data slots))).map (dateProject y m) := by
  unfold runPipeline
  constructor
  · intro h
    rcases Option.map_eq_some'.mp h with ⟨slots, h1, h2⟩
    exact ⟨slots, h1, h2.symm⟩
  · rintro ⟨slots, h1, rfl⟩
    rw [h1]; rfl

theorem mem_add_missing {l : List OutRow} {r : OutRow} :
    r ∈ add_missing_rows l ↔
      r ∈ l ∨ r ∈ (islandDays l).flatMap fun d => [gapRow6 d, gapRow7 d] := by
  unfold add_missing_rows
  rw [(List.perm_insertionSort outKey _).mem_iff, List.mem_append]

/-- C9: every record of the final output has a type code in
{0, 1, 2, 3, 4, 6, 7, 8, 9}; in particular the value 5 is never produced
by the Classifier or the GapFiller. -/
theorem claim9_type_codes (g : RawGrid) (y m : Int) (out : List Record)
    (h : runPipeline g y m = some out) :
    ∀ rec ∈ out, rec.type ∈ ([0, 1, 2, 3, 4, 6, 7, 8, 9] : List Nat) := by
  rcases runPipeline_eq.mp h with ⟨slots, -, rfl⟩
  intro rec hrec
  obtain ⟨r, hr, rfl⟩ := List.mem_map.mp hrec
  show r.type ∈ _
  rcases mem_add_missing.mp hr with hmem | hmem
  · unfold categorize_data at hmem
    obtain ⟨r0, -, rfl⟩ := List.mem_map.mp hmem
    exact typeStep7_mem r0
  · obtain ⟨d, -, hd⟩ := List.mem_flatMap.mp hmem
    simp only [List.mem_cons, List.not_mem_nil, or_false] at hd
    rcases hd with rfl | rfl
    · show (6 : Nat) ∈ _
      decide
    · show (7 : Nat) ∈ _
      decide

/-- Witness for C9: the concrete pipeline run on `dayOverflowGrid` yields a
record whose type code is in the allowed set. -/
theorem claim9_type_codes_witness :
    overflowRec.type ∈ ([0, 1, 2, 3, 4, 6, 7, 8, 9] : List Nat) :=
  claim9_type_codes dayOverflowGrid 2024 6 [overflowRec] (by decide) overflowRec (by decide)

/-- C2: a slot time that already contains a zero-padded occurrence "08:30"
is still rewritten by the Classifier's padding pass, yielding the doubly
padded "008:30"; consequently the row's final time cannot equal any of the
four fixed-schedule strings of rules 9–12, and a row that reached the
fixed-schedule rules with type 8 keeps type 8. -/
theorem claim2_repadding (r : SlotRow) (t : String) (h : r.time = some t)
    (hsub : HasSub padpat t.data) :
    (categorize_row r).time = some ⟨pad830 t.data⟩ ∧
    HasSub dpat (pad830 t.data) ∧
    ((categorize_row r).time ≠ some "08:30～17:30" ∧
     (categorize_row r).time ≠ some "17:30～翌08:30" ∧
     (categorize_row r).time ≠ some "08:30～17:15 / 22:30～翌08:30" ∧
     (categorize_row r).time ≠ some "17:15～22:30") ∧
    (typeStep3 r = 8 → (categorize_row r).type = 8) := by
  have hd : HasSub dpat (pad830 t.data) := pad830_hasSub_dpat hsub
  have ht4 : timeStep4 r = some ⟨pad830 t.data⟩ := timeStep4_of_some h
  have hne : ∀ y : String, ¬ HasSub dpat y.data → timeStep4 r ≠ some y := by
    intro y hy he
    rw [ht4] at he
    injection he with he2
    exact ne_of_hasSub hd hy (congrArg String.data he2)
  refine ⟨ht4, hd, ⟨hne _ (by decide), hne _ (by decide), hne _ (by decide), hne _ (by decide)⟩,
    fun h8 => typeStep7_of_padded_time h hsub h8⟩

/-- Witness for C2 at the concrete row with time "08:30～17:30". -/
theorem claim2_repadding_witness :
    (categorize_row paddedTimeRow).time = some ⟨pad830 ("08:30～17:30" : String).data⟩ ∧
    HasSub dpat (pad830 ("08:30～17:30" : String).data) ∧
    ((categorize_row paddedTimeRow).time ≠ some "08:30～17:30" ∧
     (categorize_row paddedTimeRow).time ≠ some "17:30～翌08:30" ∧
     (categorize_row paddedTimeRow).time ≠ some "08:30～17:15 / 22:30～翌08:30" ∧
     (categorize_row paddedTimeRow).time ≠ some "17:15～22:30") ∧
    (typeStep3 paddedTimeRow = 8 → (categorize_row paddedTimeRow).type = 8) :=
  claim2_repadding paddedTimeRow "08:30～17:30" rfl (by decide)

/-- C3 (amended): every occurrence of "8:30" in an output time string is
immediately preceded by "0", provided no parsed slot time entering the
Classifier contains the overlap pattern "8:38:30" (times the Classifier
fills in itself, and the GapFiller's synthesized times, are covered
unconditionally). -/
theorem claim3_padded_when_no_overlap (g : RawGrid) (y m : Int) (slots : List SlotRow)
    (out : List Record)
    (hm : (split_text (process_table g)).bind melt_and_split = some slots)
    (hin : ∀ r ∈ slots, ∀ t : String, r.time = some t → ¬ HasSub badpat t.data)
    (h : runPipeline g y m = some out) :
    ∀ rec ∈ out, ∀ t : String, rec.time = some t → Padded830 t.data := by
  rcases runPipeline_eq.mp h with ⟨slots2, hm2, rfl⟩
  rw [hm] at hm2
  injection hm2 with hm2
  subst hm2
  intro rec hrec t ht
  obtain ⟨r, hr, rfl⟩ := List.mem_map.mp hrec
  replace ht : r.time = some t := ht
  rcases mem_add_missing.mp hr with hmem | hmem
  · unfold categorize_data at hmem
    obtain ⟨r0, hr0, rfl⟩ := List.mem_map.mp hmem
    replace ht : timeStep4 r0 = some t := ht
    unfold timeStep4 at ht
    rcases h3 : timeStep3 r0 with - | t0
    · rw [h3] at ht; simp at ht
    · rw [h3] at ht
      simp only [Option.map_some'] at ht
      injection ht with ht2
      rw [← congrArg String.data ht2]
      show Padded830 (pad830 t0.data)
      rcases timeStep3_cases r0 with hcase | hcase | hcase | hcase
      · rw [hcase] at h3
        exact pad830_padded (hin r0 (List.mem_filter.mp hr0).1 t0 h3)
      all_goals
        rw [hcase] at h3
        injection h3 with h3
        subst h3
        exact pad830_padded (by decide)
  · obtain ⟨d, -, hd⟩ := List.mem_flatMap.mp hmem
    simp only [List.mem_cons, List.not_mem_nil, or_false] at hd
    rcases hd with rfl | rfl
    · replace ht : some "09:00～17:30" = some t := ht
      injection ht with ht
      subst ht
      exact not_padded_of_no_sub (by decide)
    · replace ht : some "09:00～12:00 / 14:00～17:00" = some t := ht
      injection ht with ht
      subst ht
      exact not_padded_of_no_sub (by decide)

/-- Witness for C3 (amended) at the concrete grid `dayOverflowGrid`. -/
theorem claim3_padded_witness : Padded830 (("09:00～12:00" : String).data) :=
  claim3_padded_when_no_overlap dayOverflowGrid 2024 6 overflowSlots [overflowRec]
    (by decide) (by decide) (by decide) overflowRec (by decide) "09:00～12:00" rfl

/-- C3 counterexample: the grid `unpaddedGrid` carries the slot time
"8:38:30"; the pipeline outputs the time "8:308:30", whose occurrence of
"8:30" at position 0 is not preceded by "0". -/
theorem claim3_counterexample :
    runPipeline unpaddedGrid 2024 6 = some [⟨⟨2024, 6, 1⟩, "X病院", 8, some "8:308:30"⟩] ∧
    ¬ Padded830 (("8:308:30" : String).data) := by
  constructor
  · decide
  · intro h
    obtain ⟨a2, ha⟩ := h [] ['8', ':', '3', '0'] (by decide)
    simp at ha

/-- C1 counterexample: on the spec's scenario grid, written with literal
spaces between the tokens, the pipeline does not produce the two claimed
records (the Reshaper deletes every space, merging the day token with the
slot tokens, so the schedule row's day parse fails and no slot columns
remain for the name/time split). -/
theorem claim1_counterexample :
    runPipeline scenarioGrid 2024 6 ≠
      some [⟨⟨2024, 6, 1⟩, "A病院", 1, some "08:30～17:30"⟩,
            ⟨⟨2024, 6, 1⟩, "B病院", 2, some "17:30～翌08:30"⟩] := by decide

/-- C1 (amended): on the scenario grid the pipeline aborts with no records:
after space removal no slot values survive, so the name/time column
assignment has nothing to expand (the source raises at that point). -/
theorem claim1_amended : runPipeline scenarioGrid 2024 6 = none := by decide

/-- C7 counterexample: with day 31 in month 2024-06 the pipeline does not
fail; it emits a record whose date month is not June. -/
theorem claim7_counterexample :
    (runPipeline dayOverflowGrid 2024 6).isSome = true ∧
    ((runPipeline dayOverflowGrid 2024 6).getD []).any
      (fun rec => decide (rec.date.month ≠ 6)) = true := by decide

/-- C7 (amended): a day value exceeding the month's length is not detected;
the record is dated first-of-month plus (day − 1) days, overflowing into
the following month (day 31 in 2024-06 yields 2024-07-01). -/
theorem claim7_amended :
    runPipeline dayOverflowGrid 2024 6 = some [overflowRec] ∧
    resolveDate 2024 6 31 = ⟨2024, 7, 1⟩ := by decide

/-- C10: the core pipeline is a pure function of the grid and the
year-month context; two runs on the same inputs coincide record for
record. -/
theorem claim10_deterministic (g : RawGrid) (y m : Int) :
    runPipeline g y m = runPipeline g y m := rfl

/-- Rule 3's predicate (slotIndex > 1) and rule 6's predicate
(slotIndex = 1) are jointly unsatisfiable: no slot row can trigger the
precedence scenario of the spec's rule-order property. -/
theorem rule3_rule6_never_coincide (r : SlotRow) :
    ¬ ((r.slotIndex > 1 ∧ r.name ∈ pediatrics ∧
          ¬ hasSub ("翌" : String).data (r.time.getD "").data = true) ∧
       (timeStep2 r = none ∧ r.slotIndex = 1)) := by
  rintro ⟨⟨h1, -⟩, -, h2⟩
  omega

/-- C8: Filter drops a slot row iff (Sunday column and the name contains
the dental marker) or the name is exactly the blood-donation or
municipal-hall-front label; the predicate is pointwise (membership in the
output is membership in the input plus the row's own predicate), and the
Sunday dental token is dropped entirely. -/
theorem claim8_filter :
    (∀ (l : List SlotRow) (r : SlotRow),
        r ∈ filter_data l ↔ r ∈ l ∧
          ¬ ((r.week = "日" ∧ HasSub ("歯科" : String).data r.name.data) ∨
             r.name = "献血" ∨ r.name = "市民会館前")) ∧
    filter_data [⟨1, "日", 1, "歯科医院", some "09:00～12:00"⟩] = [] := by
  constructor
  · intro l r
    rw [filter_data, List.mem_filter]
    refine and_congr_right fun _ => ?_
    rw [Bool.not_eq_true', ← Bool.not_eq_true]
    simp [dropRowB, hasSub_iff, not_or]
  · decide

/-- Witness for C8, instantiated at a kept weekday blood-donation-free row. -/
theorem claim8_filter_witness :
    (⟨1, "月", 1, "A病院", some "09:00～12:00"⟩ : SlotRow) ∈
        filter_data [⟨1, "月", 1, "A病院", some "09:00～12:00"⟩] ↔
      (⟨1, "月", 1, "A病院", some "09:00～12:00"⟩ : SlotRow) ∈
          [(⟨1, "月", 1, "A病院", some "09:00～12:00"⟩ : SlotRow)] ∧
        ¬ ((("月" : String) = "日" ∧ HasSub ("歯科" : String).data ("A病院" : String).data) ∨
           ("A病院" : String) = "献血" ∨ ("A病院" : String) = "市民会館前") :=
  claim8_filter.1 [⟨1, "月", 1, "A病院", some "09:00～12:00"⟩]
    ⟨1, "月", 1, "A病院", some "09:00～12:00"⟩

/-! ### GapFiller counting lemmas -/

theorem count_map_day (X : List OutRow) (d : Int) :
    (X.map (·.day)).count d = X.countP fun r => r.day == d := by
  induction X with
  | nil => rfl
  | cons x xs ih => simp [List.count_cons, List.countP_cons, ih]

theorem contains_filteredDays (l : List OutRow) (d : Int) :
    (filteredDays l).contains d = true ↔ hasSundayGapAt l d := by
  unfold filteredDays hasSundayGapAt
  rw [List.contains_iff_exists_mem_beq]
  constructor
  · rintro ⟨x, hx, hbeq⟩
    obtain ⟨r, hrf, hrd⟩ := List.mem_map.mp hx
    rw [List.mem_filter] at hrf
    exact ⟨r, hrf.1, hrf.2, by rw [hrd]; exact (beq_iff_eq.mp hbeq).symm⟩
  · rintro ⟨r, hrl, hrb, hrd⟩
    exact ⟨d, List.mem_map.mpr ⟨r, List.mem_filter.mpr ⟨hrl, hrb⟩, hrd⟩, beq_self_eq_true d⟩

theorem count_islandDays (l : List OutRow) (d : Int) :
    (islandDays l).count d =
      if hasSundayGapAt l d then l.countP (isIsland2At d) else 0 := by
  unfold islandDays
  rw [count_map_day, List.countP_filter]
  by_cases hq : hasSundayGapAt l d
  · rw [if_pos hq]
    apply List.countP_congr
    intro r hr
    unfold islandDayB isIsland2At
    by_cases hd : r.day = d
    · have hc : (filteredDays l).contains r.day = true := by
        rw [hd]; exact (contains_filteredDays l d).mpr hq
      have hm : d ∈ filteredDays l := by
        rw [← hd]; exact List.elem_iff.mp hc
      simp [hd, hc, hm]
    · simp [hd]
  · rw [if_neg hq, List.countP_eq_zero]
    intro r hr hcon
    simp only [Bool.and_eq_true, beq_iff_eq] at hcon
    obtain ⟨hd, hcon2⟩ := hcon
    unfold islandDayB at hcon2
    simp only [Bool.and_eq_true] at hcon2
    obtain ⟨⟨hc, -⟩, -⟩ := hcon2
    rw [hd] at hc
    exact hq ((contains_filteredDays l d).mp hc)

theorem isGap6At_gapRow6 (d x : Int) : isGap6At d (gapRow6 x) = true ↔ x = d := by
  unfold isGap6At gapRow6
  rw [beq_iff_eq]
  simp

theorem isGap6At_gapRow7 (d x : Int) : isGap6At d (gapRow7 x) = false := by
  unfold isGap6At gapRow7 gapRow6
  rw [beq_eq_false_iff_ne]
  simp

theorem isGap7At_gapRow7 (d x : Int) : isGap7At d (gapRow7 x) = true ↔ x = d := by
  unfold isGap7At gapRow7
  rw [beq_iff_eq]
  simp

theorem isGap7At_gapRow6 (d x : Int) : isGap7At d (gapRow6 x) = false := by
  unfold isGap7At gapRow6 gapRow7
  rw [beq_eq_false_iff_ne]
  simp

theorem countP_gapRows6 (ds : List Int) (d : Int) :
    (ds.flatMap fun d2 => [gapRow6 d2, gapRow7 d2]).countP (isGap6At d) = ds.count d := by
  induction ds with
  | nil => rfl
  | cons x xs ih =>
    rw [List.flatMap_cons, List.countP_append, ih, List.count_cons]
    by_cases h : x = d <;>
      simp [List.countP_cons, isGap6At_gapRow6, isGap6At_gapRow7, h, Nat.add_comm]

theorem countP_gapRows7 (ds : List Int) (d : Int) :
    (ds.flatMap fun d2 => [gapRow6 d2, gapRow7 d2]).countP (isGap7At d) = ds.count d := by
  induction ds with
  | nil => rfl
  | cons x xs ih =>
    rw [List.flatMap_cons, List.countP_append, ih, List.count_cons]
    by_cases h : x = d <;>
      simp [List.countP_cons, isGap7At_gapRow7, isGap7At_gapRow6, h, Nat.add_comm]

/-- C4 (amended): for every day `d`, the GapFiller adds one type-6 row and
one type-7 row (with the fixed times, slot 1, name "医師会市民病院") per
slot-2 type-9 row of a qualifying day — so the count grows by the number
of such rows, not necessarily by exactly one of each; days without the
qualifying Sunday slot-1 type-0 row, or without a slot-2 type-9 row, get
nothing; rows not in the input only arise on qualifying days; and the
result is sorted by (day, slotIndex, type). -/
theorem claim4_gapfiller (l : List OutRow) (d : Int) :
    ((add_missing_rows l).countP (isGap6At d) =
        l.countP (isGap6At d) + (if hasSundayGapAt l d then l.countP (isIsland2At d) else 0)) ∧
    ((add_missing_rows l).countP (isGap7At d) =
        l.countP (isGap7At d) + (if hasSundayGapAt l d then l.countP (isIsland2At d) else 0)) ∧
    (∀ r ∈ add_missing_rows l, r ∈ l ∨
        (hasSundayGapAt l r.day ∧ ∃ r2 ∈ l, isIsland2At r.day r2 = true ∧
          (r = gapRow6 r.day ∨ r = gapRow7 r.day))) ∧
    List.Sorted outKey (add_missing_rows l) := by
  refine ⟨?_, ?_, ?_, List.sorted_insertionSort outKey _⟩
  · unfold add_missing_rows
    rw [(List.perm_insertionSort outKey _).countP_eq, List.countP_append, countP_gapRows6,
      count_islandDays]
  · unfold add_missing_rows
    rw [(List.perm_insertionSort outKey _).countP_eq, List.countP_append, countP_gapRows7,
      count_islandDays]
  · intro r hr
    rcases mem_add_missing.mp hr with hmem | hmem
    · exact Or.inl hmem
    · right
      obtain ⟨d2, hd2, hrd⟩ := List.mem_flatMap.mp hmem
      unfold islandDays at hd2
      obtain ⟨r2, hr2f, hr2d⟩ := List.mem_map.mp hd2
      rw [List.mem_filter] at hr2f
      obtain ⟨hr2l, hr2b⟩ := hr2f
      unfold islandDayB at hr2b
      simp only [Bool.and_eq_true, beq_iff_eq] at hr2b
      obtain ⟨⟨hc, hs2⟩, ht9⟩ := hr2b
      subst hr2d
      have hday : r.day = r2.day := by
        simp only [List.mem_cons, List.not_mem_nil, or_false] at hrd
        rcases hrd with rfl | rfl <;> rfl
      refine ⟨?_, r2, hr2l, ?_, ?_⟩
      · rw [hday]
        exact (contains_filteredDays l r2.day).mp hc
      · unfold isIsland2At
        simp [hday, hs2, ht9]
      · simp only [List.mem_cons, List.not_mem_nil, or_false] at hrd
        rcases hrd with rfl | rfl
        · exact Or.inl rfl
        · exact Or.inr rfl

/-- Witness for C4 (amended), instantiated at the duplicate-island input. -/
theorem claim4_gapfiller_witness :
    (add_missing_rows gapInput).countP (isGap6At 1) =
      gapInput.countP (isGap6At 1) +
        (if hasSundayGapAt gapInput 1 then gapInput.countP (isIsland2At 1) else 0) :=
  (claim4_gapfiller gapInput 1).1

/-- C4 counterexample: a day with one qualifying Sunday slot-1 type-0 row
but two slot-2 type-9 rows receives two synthesized type-6 rows (and two
type-7 rows), not exactly one of each. -/
theorem claim4_counterexample :
    gapInput.countP (isGap6At 1) = 0 ∧
    (add_missing_rows gapInput).countP (isGap6At 1) = 2 := by decide
